import Mathlib

/-!
Formal model of `near-transactions/src/transaction_builder.rs` from the
near-api-lib repository: a builder accumulating NEAR transaction actions,
finalized either unsigned (`build`) or signed (`sign_transaction`).

External collaborator types (`near_primitives` transaction schema,
`near_crypto` signer) are embedded structurally; the externally defined
content hash is modelled from the spec as a deterministic content encoding.
-/

namespace NearTx

/-- Byte sequences (Rust `Vec<u8>` / `&[u8]`), each element a byte value. -/
abbrev Bytes := List Nat

/-- Account identifiers (`near_primitives::types::AccountId`), opaque string-like. -/
abbrev AccountId := String

/-- Nonces (`near_primitives::types::Nonce`, u64). -/
abbrev Nonce := Nat

/-- Token balances (`near_primitives::types::Balance`, u128). -/
abbrev Balance := Nat

/-- Gas budgets (`near_primitives::types::Gas`, u64). -/
abbrev Gas := Nat

/-- Public keys (`near_crypto::PublicKey`): tagged key material. -/
inductive PublicKey
  | ed25519 (data : Bytes)
  | secp256k1 (data : Bytes)
deriving DecidableEq, Repr

/-- Signature values (`near_crypto::Signature`). -/
inductive Signature
  | ed25519 (data : Bytes)
  | secp256k1 (data : Bytes)
deriving DecidableEq, Repr

/-- Block hashes (`near_primitives::hash::CryptoHash`), opaque byte value. -/
structure CryptoHash where
  data : Bytes
deriving DecidableEq, Repr

/-- Access-key permission (`near_primitives::account::AccessKeyPermission`). -/
inductive AccessKeyPermission
  | functionCall (allowance : Option Balance) (receiver_id : AccountId)
      (method_names : List String)
  | fullAccess
deriving DecidableEq, Repr

/-- Access keys (`near_primitives::account::AccessKey`). -/
structure AccessKey where
  nonce : Nonce
  permission : AccessKeyPermission
deriving DecidableEq, Repr

/-- Transaction actions (`near_primitives::transaction::Action`), the closed
variant set used by the builder. -/
inductive Action
  | createAccount
  | deployContract (code : Bytes)
  | functionCall (method_name : String) (args : Bytes) (gas : Gas) (deposit : Balance)
  | transfer (deposit : Balance)
  | stake (stake : Balance) (public_key : PublicKey)
  | addKey (public_key : PublicKey) (access_key : AccessKey)
  | deleteKey (public_key : PublicKey)
  | deleteAccount (beneficiary_id : AccountId)
deriving DecidableEq, Repr

/-- The V0 transaction record (`near_primitives::transaction::TransactionV0`),
fields in declaration order. -/
structure TransactionV0 where
  signer_id : AccountId
  public_key : PublicKey
  nonce : Nonce
  receiver_id : AccountId
  block_hash : CryptoHash
  actions : List Action
deriving DecidableEq, Repr

/-- The V1 transaction record (`near_primitives::transaction::TransactionV1`),
which additionally carries a priority fee. -/
structure TransactionV1 where
  signer_id : AccountId
  public_key : PublicKey
  nonce : Nonce
  receiver_id : AccountId
  block_hash : CryptoHash
  actions : List Action
  priority_fee : Nat
deriving DecidableEq, Repr

/-- The versioned transaction (`near_primitives::transaction::Transaction`). -/
inductive Transaction
  | V0 (tx : TransactionV0)
  | V1 (tx : TransactionV1)
deriving DecidableEq, Repr

/-- Accessor for the action list (`Transaction::actions_mut`, read side). -/
def Transaction.actions : Transaction → List Action
  | .V0 t => t.actions
  | .V1 t => t.actions

/-- Accessor for the signer account (`Transaction::signer_id`). -/
def Transaction.signer_id : Transaction → AccountId
  | .V0 t => t.signer_id
  | .V1 t => t.signer_id

/-- Accessor for the public key (`Transaction::public_key`). -/
def Transaction.public_key : Transaction → PublicKey
  | .V0 t => t.public_key
  | .V1 t => t.public_key

/-- Accessor for the receiver account (`Transaction::receiver_id`). -/
def Transaction.receiver_id : Transaction → AccountId
  | .V0 t => t.receiver_id
  | .V1 t => t.receiver_id

/-- Accessor for the nonce (`Transaction::nonce`). -/
def Transaction.nonce : Transaction → Nonce
  | .V0 t => t.nonce
  | .V1 t => t.nonce

/-- Accessor for the block hash (`Transaction::block_hash`). -/
def Transaction.block_hash : Transaction → CryptoHash
  | .V0 t => t.block_hash
  | .V1 t => t.block_hash

/-- Whether the transaction is the V0 variant. -/
def Transaction.isV0 : Transaction → Bool
  | .V0 _ => true
  | .V1 _ => false

/-- The effect of `self.transaction.actions_mut().push(a)`: append one action
to the wrapped record, leaving every other field untouched. -/
def Transaction.pushAction : Transaction → Action → Transaction
  | .V0 t, a => .V0 { t with actions := t.actions ++ [a] }
  | .V1 t, a => .V1 { t with actions := t.actions ++ [a] }

/-- Little-endian 4-byte encoding of a u32-truncated length. -/
def u32le (n : Nat) : Bytes :=
  [n % 256, n / 256 % 256, n / 65536 % 256, n / 16777216 % 256]

/-- Little-endian 8-byte encoding of a u64-truncated value. -/
def u64le (n : Nat) : Bytes :=
  [n % 256, n / 256 % 256, n / 65536 % 256, n / 16777216 % 256,
   n / 4294967296 % 256, n / 1099511627776 % 256,
   n / 281474976710656 % 256, n / 72057594037927936 % 256]

/-- Little-endian 16-byte encoding of a u128-truncated value. -/
def u128le (n : Nat) : Bytes :=
  u64le (n % 18446744073709551616) ++ u64le (n / 18446744073709551616)

/-- Length-prefixed byte-sequence encoding (borsh style). -/
def encodeBytes (b : Bytes) : Bytes := u32le b.length ++ b

/-- Length-prefixed string encoding (borsh style, characters as code points). -/
def encodeString (s : String) : Bytes := u32le s.length ++ s.data.map Char.toNat

/-- Tagged public-key encoding. -/
def encodePublicKey : PublicKey → Bytes
  | .ed25519 d => 0 :: d
  | .secp256k1 d => 1 :: d

/-- Optional-value encoding (borsh style). -/
def encodeOption : Option Balance → Bytes
  | none => [0]
  | some v => 1 :: u128le v

/-- Access-key-permission encoding. -/
def encodePermission : AccessKeyPermission → Bytes
  | .functionCall allowance rid names =>
      0 :: (encodeOption allowance ++ encodeString rid ++ u32le names.length
        ++ (names.map encodeString).flatten)
  | .fullAccess => [1]

/-- Access-key encoding. -/
def encodeAccessKey (k : AccessKey) : Bytes :=
  u64le k.nonce ++ encodePermission k.permission

/-- Tagged action encoding, one tag per variant, fields in order. -/
def encodeAction : Action → Bytes
  | .createAccount => [0]
  | .deployContract code => 1 :: encodeBytes code
  | .functionCall m args g d =>
      2 :: (encodeString m ++ encodeBytes args ++ u64le g ++ u128le d)
  | .transfer d => 3 :: u128le d
  | .stake s pk => 4 :: (u128le s ++ encodePublicKey pk)
  | .addKey pk ak => 5 :: (encodePublicKey pk ++ encodeAccessKey ak)
  | .deleteKey pk => 6 :: encodePublicKey pk
  | .deleteAccount b => 7 :: encodeString b

/-- Encoding of the non-action fields of a V0 record, in declaration order. -/
def txV0Header (t : TransactionV0) : Bytes :=
  encodeString t.signer_id ++ (encodePublicKey t.public_key ++ (u64le t.nonce
    ++ (encodeString t.receiver_id ++ t.block_hash.data)))

/-- Content encoding of a V0 record: header, then the length-prefixed actions. -/
def encodeTxV0 (t : TransactionV0) : Bytes :=
  txV0Header t ++ (u32le t.actions.length ++ (t.actions.map encodeAction).flatten)

/-- Encoding of the non-action fields of a V1 record, in declaration order. -/
def txV1Header (t : TransactionV1) : Bytes :=
  encodeString t.signer_id ++ (encodePublicKey t.public_key ++ (u64le t.nonce
    ++ (encodeString t.receiver_id ++ t.block_hash.data)))

/-- Content encoding of a V1 record. -/
def encodeTxV1 (t : TransactionV1) : Bytes :=
  txV1Header t ++ (u32le t.actions.length
    ++ ((t.actions.map encodeAction).flatten ++ u64le t.priority_fee))

/-- Modelled from the spec: `Transaction::get_hash_and_size` of near-primitives
(the external deterministic content hash over the record's wire bytes, plus the
byte size) is not part of this repository; the spec requires a deterministic
content hash computed bit-exactly from the record, which is modelled here as
the borsh-style content encoding itself together with its length. -/
def Transaction.get_hash_and_size : Transaction → Bytes × Nat
  | .V0 t => (encodeTxV0 t, (encodeTxV0 t).length)
  | .V1 t => (encodeTxV1 t, (encodeTxV1 t).length)

/-- Signer capability (`near_crypto::Signer`): a single sign operation from
bytes to a signature value, polymorphic in the produced value so that both the
concrete `Signature` type and fallible signer outcomes can instantiate it. -/
structure Signer (σ : Type) where
  sign : Bytes → σ

/-- Signed transactions (`near_primitives::transaction::SignedTransaction`):
a signature paired with the wrapped transaction record. -/
structure SignedTransaction (σ : Type) where
  signature : σ
  transaction : Transaction
deriving Repr

/-- The builder struct from the source: wraps one in-progress transaction. -/
structure TransactionBuilder where
  transaction : Transaction
deriving DecidableEq, Repr

namespace TransactionBuilder

/-- `TransactionBuilder::new`: wrap a fresh `Transaction::V0` with the five
given fields and an empty action vector. -/
def new (signer_id : AccountId) (public_key : PublicKey) (receiver_id : AccountId)
    (nonce : Nonce) (block_hash : CryptoHash) : TransactionBuilder :=
  { transaction := Transaction.V0
      { signer_id := signer_id
        public_key := public_key
        nonce := nonce
        receiver_id := receiver_id
        block_hash := block_hash
        actions := [] } }

/-- `TransactionBuilder::sign_transaction`: hash the current record, pass the
hash to the signer, and package the signature with a copy of the record. -/
def sign_transaction (b : TransactionBuilder) (signer : Signer σ) :
    SignedTransaction σ :=
  { signature := signer.sign (b.transaction.get_hash_and_size).1
    transaction := b.transaction }

/-- `TransactionBuilder::create_account`. -/
def create_account (b : TransactionBuilder) : TransactionBuilder :=
  { transaction := b.transaction.pushAction Action.createAccount }

/-- `TransactionBuilder::deploy_contract`. -/
def deploy_contract (b : TransactionBuilder) (code : Bytes) : TransactionBuilder :=
  { transaction := b.transaction.pushAction (Action.deployContract code) }

/-- `TransactionBuilder::function_call`. -/
def function_call (b : TransactionBuilder) (method_name : String) (args : Bytes)
    (gas : Gas) (deposit : Balance) : TransactionBuilder :=
  { transaction := b.transaction.pushAction
      (Action.functionCall method_name args gas deposit) }

/-- `TransactionBuilder::transfer`. -/
def transfer (b : TransactionBuilder) (deposit : Balance) : TransactionBuilder :=
  { transaction := b.transaction.pushAction (Action.transfer deposit) }

/-- `TransactionBuilder::stake`. -/
def stake (b : TransactionBuilder) (stakeAmount : Balance) (public_key : PublicKey) :
    TransactionBuilder :=
  { transaction := b.transaction.pushAction (Action.stake stakeAmount public_key) }

/-- `TransactionBuilder::add_key`. -/
def add_key (b : TransactionBuilder) (public_key : PublicKey) (access_key : AccessKey) :
    TransactionBuilder :=
  { transaction := b.transaction.pushAction (Action.addKey public_key access_key) }

/-- `TransactionBuilder::delete_key`. -/
def delete_key (b : TransactionBuilder) (public_key : PublicKey) : TransactionBuilder :=
  { transaction := b.transaction.pushAction (Action.deleteKey public_key) }

/-- `TransactionBuilder::delete_account`. -/
def delete_account (b : TransactionBuilder) (beneficiary_id : AccountId) :
    TransactionBuilder :=
  { transaction := b.transaction.pushAction (Action.deleteAccount beneficiary_id) }

/-- `TransactionBuilder::build`: consume the builder, returning the record. -/
def build (b : TransactionBuilder) : Transaction := b.transaction

end TransactionBuilder

/-- One append call with its arguments, one constructor per builder append
method. -/
inductive AppendCall
  | create_account
  | deploy_contract (code : Bytes)
  | function_call (method_name : String) (args : Bytes) (gas : Gas) (deposit : Balance)
  | transfer (deposit : Balance)
  | stake (stakeAmount : Balance) (public_key : PublicKey)
  | add_key (public_key : PublicKey) (access_key : AccessKey)
  | delete_key (public_key : PublicKey)
  | delete_account (beneficiary_id : AccountId)
deriving DecidableEq, Repr

/-- The action a given append call constructs from its arguments, matching the
body of the corresponding builder method. -/
def AppendCall.action : AppendCall → Action
  | .create_account => Action.createAccount
  | .deploy_contract code => Action.deployContract code
  | .function_call m args g d => Action.functionCall m args g d
  | .transfer d => Action.transfer d
  | .stake s pk => Action.stake s pk
  | .add_key pk ak => Action.addKey pk ak
  | .delete_key pk => Action.deleteKey pk
  | .delete_account b => Action.deleteAccount b

/-- Dispatch one append call to the corresponding builder method. -/
def applyCall (b : TransactionBuilder) : AppendCall → TransactionBuilder
  | .create_account => b.create_account
  | .deploy_contract code => b.deploy_contract code
  | .function_call m args g d => b.function_call m args g d
  | .transfer d => b.transfer d
  | .stake s pk => b.stake s pk
  | .add_key pk ak => b.add_key pk ak
  | .delete_key pk => b.delete_key pk
  | .delete_account acct => b.delete_account acct

/-- Run a sequence of append calls left to right, as chained method calls. -/
def applyCalls (b : TransactionBuilder) (cs : List AppendCall) : TransactionBuilder :=
  cs.foldl applyCall b

/-- One operation on a live builder: either an append (through `&mut self`) or
a sign call (through `&self`, which leaves the builder as it was). -/
inductive BuilderOp (σ : Type)
  | append (c : AppendCall)
  | sign (s : Signer σ)

/-- The builder state after one operation: appends push their action; a sign
call borrows the builder immutably and returns it unchanged. -/
def applyOp (b : TransactionBuilder) : BuilderOp σ → TransactionBuilder
  | .append c => applyCall b c
  | .sign _ => b

/-- Pushing an action appends it to the action list of either variant. -/
theorem Transaction.pushAction_actions (t : Transaction) (a : Action) :
    (t.pushAction a).actions = t.actions ++ [a] := by
  cases t <;> rfl

/-- Pushing an action leaves every non-action field and the variant unchanged. -/
theorem Transaction.pushAction_frame (t : Transaction) (a : Action) :
    (t.pushAction a).signer_id = t.signer_id
    ∧ (t.pushAction a).public_key = t.public_key
    ∧ (t.pushAction a).receiver_id = t.receiver_id
    ∧ (t.pushAction a).nonce = t.nonce
    ∧ (t.pushAction a).block_hash = t.block_hash
    ∧ (t.pushAction a).isV0 = t.isV0 := by
  cases t <;> exact ⟨rfl, rfl, rfl, rfl, rfl, rfl⟩

/-- Every append method dispatched through `applyCall` is a push of the action
constructed from the call's arguments. -/
theorem applyCall_transaction (b : TransactionBuilder) (c : AppendCall) :
    (applyCall b c).transaction = b.transaction.pushAction c.action := by
  cases c <;> rfl

/-- Running a call sequence appends the constructed actions in call order. -/
theorem applyCalls_transaction_actions (b : TransactionBuilder) (cs : List AppendCall) :
    (applyCalls b cs).transaction.actions
      = b.transaction.actions ++ cs.map AppendCall.action := by
  induction cs generalizing b with
  | nil => simp [applyCalls]
  | cons c cs ih =>
    show (applyCalls (applyCall b c) cs).transaction.actions = _
    rw [ih, applyCall_transaction, Transaction.pushAction_actions]
    simp

/-- Running a call sequence leaves every non-action field and the variant
unchanged. -/
theorem applyCalls_frame (b : TransactionBuilder) (cs : List AppendCall) :
    (applyCalls b cs).transaction.signer_id = b.transaction.signer_id
    ∧ (applyCalls b cs).transaction.public_key = b.transaction.public_key
    ∧ (applyCalls b cs).transaction.receiver_id = b.transaction.receiver_id
    ∧ (applyCalls b cs).transaction.nonce = b.transaction.nonce
    ∧ (applyCalls b cs).transaction.block_hash = b.transaction.block_hash
    ∧ (applyCalls b cs).transaction.isV0 = b.transaction.isV0 := by
  induction cs generalizing b with
  | nil => exact ⟨rfl, rfl, rfl, rfl, rfl, rfl⟩
  | cons c cs ih =>
    have step := Transaction.pushAction_frame b.transaction c.action
    have rest := ih (applyCall b c)
    have hc := applyCall_transaction b c
    rw [hc] at rest
    exact ⟨rest.1.trans step.1, rest.2.1.trans step.2.1,
      rest.2.2.1.trans step.2.2.1, rest.2.2.2.1.trans step.2.2.2.1,
      rest.2.2.2.2.1.trans step.2.2.2.2.1, rest.2.2.2.2.2.trans step.2.2.2.2.2⟩

/-- Consecutive naturals differ modulo 256. -/
theorem succ_mod_256_ne (n : Nat) : (n + 1) % 256 ≠ n % 256 := by omega

/-- Two byte strings sharing a common leading part but carrying different
length bytes (mod 256) at the next position are distinct. -/
theorem append_u32le_ne (P A B : Bytes) (n m : Nat) (h : n % 256 ≠ m % 256) :
    P ++ (u32le n ++ A) ≠ P ++ (u32le m ++ B) := by
  intro heq
  have h2 : u32le n ++ A = u32le m ++ B := List.append_cancel_left heq
  have h3 : some (n % 256) = some (m % 256) := by
    calc some (n % 256) = (u32le n ++ A).head? := by simp [u32le]
      _ = (u32le m ++ B).head? := by rw [h2]
      _ = some (m % 256) := by simp [u32le]
  exact h (Option.some.inj h3)

/-- Appending an action always changes the modelled content hash: the encodings
agree on the leading non-action fields and then differ at the action-count
byte. -/
theorem get_hash_pushAction_ne (t : Transaction) (a : Action) :
    (t.pushAction a).get_hash_and_size.1 ≠ t.get_hash_and_size.1 := by
  cases t with
  | V0 t0 =>
    show encodeTxV0 { t0 with actions := t0.actions ++ [a] } ≠ encodeTxV0 t0
    unfold encodeTxV0
    have hlen : (t0.actions ++ [a]).length = t0.actions.length + 1 := by simp
    rw [hlen]
    exact append_u32le_ne _ _ _ _ _ (succ_mod_256_ne _)
  | V1 t1 =>
    show encodeTxV1 { t1 with actions := t1.actions ++ [a] } ≠ encodeTxV1 t1
    unfold encodeTxV1
    have hlen : (t1.actions ++ [a]).length = t1.actions.length + 1 := by simp
    rw [hlen]
    exact append_u32le_ne _ _ _ _ _ (succ_mod_256_ne _)

/-- C1: for every sequence of N append calls on a freshly constructed builder,
`build()` returns a record whose action sequence has exactly length N and whose
i-th element is the action constructed from the arguments of the i-th append
call, in call order, with no reordering, deduplication, or coalescing. -/
theorem claim1_build_appends_in_order (sid : AccountId) (pk : PublicKey)
    (rid : AccountId) (n : Nonce) (bh : CryptoHash) (cs : List AppendCall) :
    ((applyCalls (TransactionBuilder.new sid pk rid n bh) cs).build).actions
        = cs.map AppendCall.action
    ∧ ((applyCalls (TransactionBuilder.new sid pk rid n bh) cs).build).actions.length
        = cs.length
    ∧ ∀ i : Fin cs.length,
        (((applyCalls (TransactionBuilder.new sid pk rid n bh) cs).build).actions)[i.val]?
          = some (cs.get i).action := by
  have hmap :
      ((applyCalls (TransactionBuilder.new sid pk rid n bh) cs).build).actions
        = cs.map AppendCall.action := by
    show (applyCalls (TransactionBuilder.new sid pk rid n bh) cs).transaction.actions = _
    rw [applyCalls_transaction_actions]
    rfl
  refine ⟨hmap, by rw [hmap]; simp, ?_⟩
  intro i
  rw [hmap]
  simp

/-- C2: `sign_transaction` produces a record whose signature is the signer's
sign operation applied to the content hash of the record at call time, and
whose wrapped transaction is that record; with a deterministic stub deriving
bytes from its input, the signature is the stub's output on the current hash. -/
theorem claim2_sign_wiring {σ : Type} (b : TransactionBuilder) (f : Bytes → σ)
    (stub : Bytes → Bytes) :
    (b.sign_transaction ⟨f⟩).signature = f (b.transaction.get_hash_and_size).1
    ∧ (b.sign_transaction ⟨f⟩).transaction = b.transaction
    ∧ (b.sign_transaction ⟨fun bs => Signature.ed25519 (stub bs)⟩).signature
        = Signature.ed25519 (stub (b.transaction.get_hash_and_size).1) :=
  ⟨rfl, rfl, rfl⟩

/-- C3: the only failure surface is the sign operation: the signer's output is
placed verbatim in the result after a single application (so a fallible
signer's error value propagates unchanged, with no retry and no added
context), while `new`, every append, and `build` are total and yield their
defined results on every well-typed input. -/
theorem claim3_failure_surface {σ : Type} (f : Bytes → σ) (b : TransactionBuilder)
    (c : AppendCall) (sid : AccountId) (pk : PublicKey) (rid : AccountId)
    (n : Nonce) (bh : CryptoHash) (e : String) :
    (b.sign_transaction ⟨f⟩).signature = f (b.transaction.get_hash_and_size).1
    ∧ (b.sign_transaction
          ⟨fun _ => (Except.error e : Except String Signature)⟩).signature
        = Except.error e
    ∧ applyCall b c = { transaction := b.transaction.pushAction c.action }
    ∧ (TransactionBuilder.new sid pk rid n bh).transaction
        = Transaction.V0
            { signer_id := sid
              public_key := pk
              nonce := n
              receiver_id := rid
              block_hash := bh
              actions := [] }
    ∧ b.build = b.transaction := by
  refine ⟨rfl, rfl, ?_, rfl, rfl⟩
  cases c <;> rfl

/-- C4: every append mutates only the action sequence: all five identity and
routing fields survive each append unchanged, and on a freshly constructed
builder they remain the constructor arguments after any append sequence. -/
theorem claim4_append_frame (b : TransactionBuilder) (c : AppendCall)
    (sid : AccountId) (pk : PublicKey) (rid : AccountId) (n : Nonce)
    (bh : CryptoHash) (cs : List AppendCall) :
    (applyCall b c).transaction.signer_id = b.transaction.signer_id
    ∧ (applyCall b c).transaction.public_key = b.transaction.public_key
    ∧ (applyCall b c).transaction.receiver_id = b.transaction.receiver_id
    ∧ (applyCall b c).transaction.nonce = b.transaction.nonce
    ∧ (applyCall b c).transaction.block_hash = b.transaction.block_hash
    ∧ (applyCall b c).transaction.actions = b.transaction.actions ++ [c.action]
    ∧ ((applyCalls (TransactionBuilder.new sid pk rid n bh) cs).build).signer_id = sid
    ∧ ((applyCalls (TransactionBuilder.new sid pk rid n bh) cs).build).public_key = pk
    ∧ ((applyCalls (TransactionBuilder.new sid pk rid n bh) cs).build).receiver_id = rid
    ∧ ((applyCalls (TransactionBuilder.new sid pk rid n bh) cs).build).nonce = n
    ∧ ((applyCalls (TransactionBuilder.new sid pk rid n bh) cs).build).block_hash = bh := by
  have hstep := Transaction.pushAction_frame b.transaction c.action
  have hc := applyCall_transaction b c
  have hcalls := applyCalls_frame (TransactionBuilder.new sid pk rid n bh) cs
  rw [hc]
  exact ⟨hstep.1, hstep.2.1, hstep.2.2.1, hstep.2.2.2.1, hstep.2.2.2.2.1,
    Transaction.pushAction_actions _ _,
    hcalls.1, hcalls.2.1, hcalls.2.2.1, hcalls.2.2.2.1, hcalls.2.2.2.2.1⟩

/-- C5: no operation of the builder ever mutates or removes an appended
action: after any append or sign operation, the previous action sequence is a
prefix, element for element, of the new one. -/
theorem claim5_actions_only_grow {σ : Type} (b : TransactionBuilder)
    (op : BuilderOp σ) :
    List.IsPrefix b.transaction.actions (applyOp b op).transaction.actions := by
  cases op with
  | append c =>
    exact ⟨[c.action], by
      rw [show (applyOp b (BuilderOp.append c)) = applyCall b c from rfl,
        applyCall_transaction, Transaction.pushAction_actions]⟩
  | sign s => exact ⟨[], by simp [applyOp]⟩

/-- C6: `sign_transaction` borrows the builder immutably (the builder after a
sign operation is the builder before it), and two consecutive sign calls on
the unchanged state with the same deterministic signer produce equal
signatures and equal wrapped records. -/
theorem claim6_sign_does_not_consume {σ : Type} (b : TransactionBuilder)
    (s : Signer σ) :
    applyOp b (BuilderOp.sign s) = b
    ∧ ((applyOp b (BuilderOp.sign s)).sign_transaction s).signature
        = (b.sign_transaction s).signature
    ∧ ((applyOp b (BuilderOp.sign s)).sign_transaction s).transaction
        = (b.sign_transaction s).transaction :=
  ⟨rfl, rfl, rfl⟩

/-- C7 (counterexample): with the constant — hence deterministic — stub signer,
appending an action after a sign call and signing again yields the SAME
signature, refuting the claim that any deterministic signer yields a different
one. -/
theorem claim7_counterexample :
    ((applyCall (TransactionBuilder.new "alice.test" (PublicKey.ed25519 [1])
          "bob.test" 1 ⟨[2]⟩) AppendCall.create_account).sign_transaction
        ⟨fun _ => Signature.ed25519 []⟩).signature
      = ((TransactionBuilder.new "alice.test" (PublicKey.ed25519 [1])
          "bob.test" 1 ⟨[2]⟩).sign_transaction
        ⟨fun _ => Signature.ed25519 []⟩).signature := rfl

/-- C7 (amended): the signature binds to the state at call time: appending any
action always changes the content hash passed to the signer, so signing again
with an injective deterministic signer yields a different signature (a
non-injective deterministic signer, such as a constant stub, need not). -/
theorem claim7_sign_binds_to_current_state {σ : Type} (b : TransactionBuilder)
    (c : AppendCall) (f : Bytes → σ) (hf : Function.Injective f) :
    ((applyCall b c).sign_transaction ⟨f⟩).signature
        ≠ (b.sign_transaction ⟨f⟩).signature
    ∧ ((applyCall b c).transaction.get_hash_and_size).1
        ≠ (b.transaction.get_hash_and_size).1 := by
  have hhash : ((applyCall b c).transaction.get_hash_and_size).1
      ≠ (b.transaction.get_hash_and_size).1 := by
    rw [applyCall_transaction]
    exact get_hash_pushAction_ne b.transaction c.action
  exact ⟨fun heq => hhash (hf heq), hhash⟩

/-- C7 (witness): a concrete injective stub signer on a concrete builder and
append call, where the re-sign indeed produces a different signature. -/
theorem claim7_witness :
    Function.Injective (fun d => Signature.ed25519 d)
    ∧ ((applyCall (TransactionBuilder.new "a" (PublicKey.ed25519 []) "b" 0 ⟨[]⟩)
          (AppendCall.transfer 7)).sign_transaction
        ⟨fun d => Signature.ed25519 d⟩).signature
      ≠ ((TransactionBuilder.new "a" (PublicKey.ed25519 []) "b" 0
          ⟨[]⟩).sign_transaction ⟨fun d => Signature.ed25519 d⟩).signature := by
  have hinj : Function.Injective (fun d => Signature.ed25519 d) :=
    fun x y hxy => Signature.ed25519.inj hxy
  exact ⟨hinj, (claim7_sign_binds_to_current_state _ _ _ hinj).1⟩

/-- C8: appends perform no validation and cannot fail: a FunctionCall append
with empty method name, empty args, zero gas and zero deposit is appended
as-is, and every append on every well-typed input appends exactly the
constructed action. -/
theorem claim8_no_validation (b : TransactionBuilder) (m : String) (args : Bytes)
    (g : Gas) (d : Balance) (c : AppendCall) :
    (b.function_call "" [] 0 0).transaction.actions
        = b.transaction.actions ++ [Action.functionCall "" [] 0 0]
    ∧ (b.function_call m args g d).transaction.actions
        = b.transaction.actions ++ [Action.functionCall m args g d]
    ∧ (applyCall b c).transaction.actions = b.transaction.actions ++ [c.action] := by
  refine ⟨Transaction.pushAction_actions _ _, Transaction.pushAction_actions _ _, ?_⟩
  rw [applyCall_transaction]
  exact Transaction.pushAction_actions _ _

/-- C9: the builder always wraps a V0 transaction: `new` constructs the V0
variant, no append changes the variant, and both `build` and the record
wrapped by `sign_transaction` return the V0 variant after any call sequence. -/
theorem claim9_always_v0 {σ : Type} (sid : AccountId) (pk : PublicKey)
    (rid : AccountId) (n : Nonce) (bh : CryptoHash) (cs : List AppendCall)
    (s : Signer σ) :
    ((applyCalls (TransactionBuilder.new sid pk rid n bh) cs).build).isV0 = true
    ∧ (((applyCalls (TransactionBuilder.new sid pk rid n bh) cs).sign_transaction
          s).transaction).isV0 = true := by
  have h := (applyCalls_frame (TransactionBuilder.new sid pk rid n bh) cs).2.2.2.2.2
  exact ⟨h, h⟩

/-- C10: the signed output embeds an independent copy of the record: the
wrapped transaction is the builder's record at sign time, and append calls
made afterwards accumulate only in the builder, not in the previously
returned signed record. -/
theorem claim10_signed_record_independent {σ : Type} (b : TransactionBuilder)
    (s : Signer σ) (cs : List AppendCall) :
    (b.sign_transaction s).transaction = b.transaction
    ∧ (b.sign_transaction s).transaction.actions = b.transaction.actions
    ∧ (applyCalls b cs).transaction.actions
        = (b.sign_transaction s).transaction.actions ++ cs.map AppendCall.action :=
  ⟨rfl, rfl, applyCalls_transaction_actions b cs⟩

end NearTx
